import Mathlib

/- Verification of the metrics logic of the TCS-vs-Infosys dashboard
   scripts (Finance.py, clg.py, Project.py, Revenue_analysis.py,
   levelup.py).  The pure numeric computations of those scripts are
   embedded shallowly: float arithmetic is modelled as real arithmetic,
   exact tabular values as rationals, pandas columns as lists, and NaN
   cells as `none` in an `Option` type or, where infinities must be told
   apart from NaN, as a dedicated float-cell type.  Period markers (dates
   or quarter labels) are modelled as strings where only equality matters
   and as naturals in chronological order where the order matters. -/

namespace Finance

/-- CAGR helper of Finance.py lines 74-75 (identical to the one in clg.py
lines 88-89): computes the raw formula with no input guard. -/
noncomputable def calculate_cagr (start_value end_value periods : ℝ) : ℝ :=
  ((end_value / start_value) ^ ((1 : ℝ) / periods) - 1) * 100

end Finance

namespace Levelup

/-- Guarded CAGR helper of levelup.py lines 242-245: returns the NaN
sentinel (modelled as `none`) when `start_value == 0 or end_value == 0 or
years <= 0`, and otherwise the same formula as the other variants. -/
noncomputable def calculate_cagr (start_value end_value years : ℝ) : Option ℝ :=
  if start_value = 0 ∨ end_value = 0 ∨ years ≤ 0 then none
  else some (((end_value / start_value) ^ ((1 : ℝ) / years) - 1) * 100)

end Levelup

namespace Project

/-- CAGR computation of Project.py lines 350-356: the number of years is
the number of elapsed calendar days between the first and last quarter,
divided by 365.25. -/
noncomputable def cagr_days (rev_start rev_end : ℝ) (days : ℕ) : ℝ :=
  ((rev_end / rev_start) ^ ((1 : ℝ) / ((days : ℝ) / 365.25)) - 1) * 100

/-- Float cell of a pandas numeric column: a finite value, a signed
infinity, or NaN.  Infinities and NaN arise here from division by a zero
prior value and from the leading positions of `pct_change`. -/
inductive Cell where
  | val : ℚ → Cell
  | pinf : Cell
  | ninf : Cell
  | nan : Cell
deriving DecidableEq

/-- Whether a float cell is NaN (infinities are not). -/
def Cell.isNaN : Cell → Bool
  | Cell.nan => true
  | _ => false

/-- Result of the float computation `c / p - 1` on finite inputs, following
IEEE division: a finite rational when `p` is nonzero, a signed infinity
when `p` is zero and `c` is not, and NaN for `0 / 0`. -/
def divCell (c p : ℚ) : Cell :=
  if p = 0 then
    if c = 0 then Cell.nan
    else if 0 < c then Cell.pinf
    else Cell.ninf
  else Cell.val (c / p - 1)

/-- Embedding of pandas `Series.pct_change(periods=lag)` as used in
Project.py lines 322-323 and 335-338: entry `i` is NaN for `i < lag` and
the float result of `v[i] / v[i - lag] - 1` for `i >= lag`. -/
def pct_change (xs : List ℚ) (lag : ℕ) : List Cell :=
  (List.range xs.length).map (fun i =>
    if lag ≤ i then divCell (xs.getD i 0) (xs.getD (i - lag) 0)
    else Cell.nan)

/-- pandas `dropna()`: removes every NaN row, wherever it appears, and
keeps infinite rows. -/
def dropna (cs : List Cell) : List Cell :=
  cs.filter (fun c => ! c.isNaN)

/-- Scaling `* 100` of a float cell: infinities and NaN are absorbing. -/
def scale100 : Cell → Cell
  | Cell.val q => Cell.val (q * 100)
  | c => c

/-- Growth series of Project.py line 323 (`pct_change().dropna() * 100`,
generalised over the lag as in line 338), restricted to one column. -/
def qoq_growth (xs : List ℚ) (lag : ℕ) : List Cell :=
  (dropna (pct_change xs lag)).map scale100

/-- Sample standard deviation (pandas `ddof=1`) of one window; undefined
(NaN) when the window has fewer than two observations. -/
noncomputable def sampleStd (window : List ℝ) : Option ℝ :=
  if window.length ≤ 1 then none
  else
    some (Real.sqrt
      (((window.map (fun x => (x - window.sum / window.length) ^ 2)).sum) /
        (window.length - 1)))

/-- Embedding of `df[Close].rolling(window=w).std()` of Project.py line 34
and Revenue_analysis.py line 32 (there with `w = 20`): the result has one
entry per input row; entry `i` is the sample standard deviation of the
trailing window `xs[i+1-w .. i]` once `w` observations are available and
the NaN padding value (`none`) before that. -/
noncomputable def rolling_std (xs : List ℝ) (w : ℕ) : List (Option ℝ) :=
  (List.range xs.length).map (fun i =>
    if w ≤ i + 1 then sampleStd ((xs.take (i + 1)).drop (i + 1 - w)) else none)

/-- Normalised revenue of Project.py lines 296-300 and Revenue_analysis.py
lines 155-159: each value of the (chronologically sorted) revenue column
of one company is rescaled by `(x / x.iloc[0]) * 100`. -/
def normalized_revenue (xs : List ℚ) : List ℚ :=
  match xs with
  | [] => []
  | b :: rest => (b :: rest).map (fun v => v / b * 100)

/-- Membership of a period marker among the markers of a series. -/
def markerMem (m : String) (s : List (String × ℚ)) : Bool :=
  s.any (fun p => p.1 == m)

/-- Predicate for `common_quarters`, the set intersection of the quarter
markers of the two series (Project.py line 292). -/
def common_marker (a b : List (String × ℚ)) (m : String) : Bool :=
  markerMem m a && markerMem m b

/-- Alignment of Project.py lines 291-293 and Revenue_analysis.py lines
150-152: each series keeps exactly the rows whose quarter marker lies in
`common_quarters`, in their original order. -/
def aligned_df (a b : List (String × ℚ)) :
    List (String × ℚ) × List (String × ℚ) :=
  (a.filter (fun p => common_marker a b p.1),
   b.filter (fun p => common_marker a b p.1))

/-- First row attaining the maximum value, as pandas `idxmax` used in
Project.py line 371: the accumulator is replaced only on a strictly larger
value, so ties keep the earliest row. -/
def argmaxFirst (p : ℕ × ℚ) (rest : List (ℕ × ℚ)) : ℕ × ℚ :=
  rest.foldl (fun acc q => if acc.2 < q.2 then q else acc) p

/-- First row attaining the minimum value, as pandas `idxmin` used in
Project.py line 372. -/
def argminFirst (p : ℕ × ℚ) (rest : List (ℕ × ℚ)) : ℕ × ℚ :=
  rest.foldl (fun acc q => if q.2 < acc.2 then q else acc) p

/-- Best and worst quarter of Project.py lines 370-376, restricted to one
company: the rows (marker, revenue) of the first maximum and the first
minimum, or `none` on an empty series. -/
def best_worst (pts : List (ℕ × ℚ)) : Option ((ℕ × ℚ) × (ℕ × ℚ)) :=
  match pts with
  | [] => none
  | p :: rest => some (argmaxFirst p rest, argminFirst p rest)

end Project

namespace Engine

/-- Modelled from the spec: `linear_forecast` of section 4.1.  The sources
only inline a third-party ordinary-least-squares fit on a fixed series of
eight points (clg.py lines 129-137) or a growth-rate compounding forecast
(Finance.py lines 95-102); the engine operation with its fewer-than-two-
points rejection is not itself in src.  Fits `y = slope * x + intercept`
over the period indices `0 .. n-1` and appends `k` forecast values at the
following indices, rejecting series with fewer than two observed points
with a descriptive error. -/
def linear_forecast (ys : List ℚ) (k : ℕ) : Except String (List ℚ) :=
  if ys.length < 2 then
    Except.error "linear_forecast: need at least 2 observed points"
  else
    let n : ℚ := ys.length
    let xs := (List.range ys.length).map (fun i => (i : ℚ))
    let sx := xs.sum
    let sy := ys.sum
    let sxy := ((xs.zip ys).map (fun q => q.1 * q.2)).sum
    let sxx := (xs.map (fun x => x * x)).sum
    let slope := (n * sxy - sx * sy) / (n * sxx - sx * sx)
    let intercept := (sy - slope * sx) / n
    Except.ok (ys ++ (List.range k).map (fun i => slope * ((ys.length : ℚ) + i) + intercept))

end Engine

/- Helper lemmas about real n-th roots written as `rpow (1 / n)`. -/

theorem rpow_nat_root_pow {x : ℝ} (hx : 0 < x) {n : ℕ} (hn : n ≠ 0) :
    (x ^ ((1 : ℝ) / n)) ^ (n : ℕ) = x := by
  have h1 : (x ^ ((1 : ℝ) / n)) ^ (n : ℕ) = x ^ (((1 : ℝ) / n) * n) := by
    rw [← Real.rpow_natCast (x ^ ((1 : ℝ) / n)) n, ← Real.rpow_mul hx.le]
  rw [h1, one_div_mul_cancel (Nat.cast_ne_zero.mpr hn), Real.rpow_one]

theorem lt_rpow_nat_root {a x : ℝ} (hx : 0 < x) {n : ℕ} (hn : n ≠ 0)
    (h : a ^ (n : ℕ) < x) : a < x ^ ((1 : ℝ) / n) := by
  by_contra hc
  push_neg at hc
  have hpos : (0 : ℝ) < x ^ ((1 : ℝ) / n) := Real.rpow_pos_of_pos hx _
  have h2 := pow_le_pow_left₀ hpos.le hc n
  rw [rpow_nat_root_pow hx hn] at h2
  exact absurd (lt_of_le_of_lt h2 h) (lt_irrefl _)

theorem rpow_nat_root_lt {x b : ℝ} (hx : 0 < x) (hb : 0 ≤ b) {n : ℕ} (hn : n ≠ 0)
    (h : x < b ^ (n : ℕ)) : x ^ ((1 : ℝ) / n) < b := by
  by_contra hc
  push_neg at hc
  have h2 := pow_le_pow_left₀ hb hc n
  rw [rpow_nat_root_pow hx hn] at h2
  exact absurd (lt_of_le_of_lt h2 h) (lt_irrefl _)

/-- C1: the unguarded CAGR helper shared by Finance.py and clg.py returns
`((end_value / start_value) ** (1 / num_periods) - 1) * 100` for every
nonzero start value and positive period count, and on the endpoints of the
TCS yearly revenue series it evaluates to approximately 8.96 percent:
`|calculate_cagr 108.78 198.45 7 - 8.96| < 0.02`. -/
theorem claim_C1_cagr_formula_and_value (s e p : ℝ) (hs : s ≠ 0) (hp : 0 < p) :
    Finance.calculate_cagr s e p = ((e / s) ^ ((1 : ℝ) / p) - 1) * 100 ∧
    |Finance.calculate_cagr 108.78 198.45 7 - 8.96| < 1 / 50 := by
  refine ⟨rfl, ?_⟩
  have hr : (0 : ℝ) < 198.45 / 108.78 := by norm_num
  have hlow : ((1.0894 : ℝ)) ^ (7 : ℕ) < 198.45 / 108.78 := by norm_num
  have hhigh : (198.45 : ℝ) / 108.78 < 1.0898 ^ (7 : ℕ) := by norm_num
  have h7 : (7 : ℕ) ≠ 0 := by norm_num
  have hl : (1.0894 : ℝ) < (198.45 / 108.78) ^ ((1 : ℝ) / (7 : ℕ)) :=
    lt_rpow_nat_root hr h7 hlow
  have hh : ((198.45 : ℝ) / 108.78) ^ ((1 : ℝ) / (7 : ℕ)) < 1.0898 :=
    rpow_nat_root_lt hr (by norm_num) h7 hhigh
  have hcast : ((7 : ℕ) : ℝ) = (7 : ℝ) := by norm_num
  rw [hcast] at hl hh
  have hval : Finance.calculate_cagr 108.78 198.45 7 =
      ((198.45 / 108.78) ^ ((1 : ℝ) / 7) - 1) * 100 := rfl
  rw [hval, abs_sub_lt_iff]
  constructor <;> nlinarith [hl, hh]

/-- C1 witness: the theorem instantiated at the TCS revenue endpoints. -/
theorem claim_C1_witness :
    Finance.calculate_cagr 108.78 198.45 7 =
      ((198.45 / 108.78) ^ ((1 : ℝ) / 7) - 1) * 100 :=
  (claim_C1_cagr_formula_and_value 108.78 198.45 7 (by norm_num) (by norm_num)).1

/-- C4: the guarded CAGR helper of levelup.py returns the NaN sentinel and
raises nothing whenever the start value is zero or the period count is not
positive. -/
theorem claim_C4_guarded_nan (s e y : ℝ) (h : s = 0 ∨ y ≤ 0) :
    Levelup.calculate_cagr s e y = none := by
  unfold Levelup.calculate_cagr
  rcases h with h | h
  · rw [if_pos (Or.inl h)]
  · rw [if_pos (Or.inr (Or.inr h))]

/-- C4 witness: a zero start value yields the sentinel. -/
theorem claim_C4_witness : Levelup.calculate_cagr 0 198.45 7 = none :=
  claim_C4_guarded_nan 0 198.45 7 (Or.inl rfl)

/-- C10: the guarded CAGR helper of levelup.py also returns the NaN
sentinel whenever the end value is zero, for all start values and period
counts, so a caller passing a zero end value gets the undefined sentinel
rather than a computed rate or an error. -/
theorem claim_C10_end_zero_nan (s y : ℝ) : Levelup.calculate_cagr s 0 y = none := by
  unfold Levelup.calculate_cagr
  rw [if_pos (Or.inr (Or.inl rfl))]

/-- C9: the two periods-to-years conventions disagree.  On a series that
doubles from 100 to 200 over the three calendar years 2020-03-31 to
2023-03-31 (1095 elapsed days), the days/365.25 convention of Project.py
and the integer-year-count convention of Finance.py give different CAGR
percentages. -/
theorem claim_C9_conventions_differ :
    Project.cagr_days 100 200 1095 ≠ Finance.calculate_cagr 100 200 3 := by
  unfold Project.cagr_days Finance.calculate_cagr
  have hexp : (1 : ℝ) / 3 < 1 / (((1095 : ℕ) : ℝ) / 365.25) := by norm_num
  have hlt : (200 / 100 : ℝ) ^ ((1 : ℝ) / 3) <
      (200 / 100 : ℝ) ^ ((1 : ℝ) / (((1095 : ℕ) : ℝ) / 365.25)) := by
    have h2 : (200 / 100 : ℝ) = 2 := by norm_num
    rw [h2]
    exact (Real.rpow_lt_rpow_left_iff (by norm_num)).mpr hexp
  have hgt : (((200 : ℝ) / 100) ^ ((1 : ℝ) / 3) - 1) * 100 <
      (((200 : ℝ) / 100) ^ ((1 : ℝ) / (((1095 : ℕ) : ℝ) / 365.25)) - 1) * 100 := by
    nlinarith [hlt]
  exact ne_of_gt hgt

/-- C5: on a series with nonzero first value, the normalisation of
Project.py and Revenue_analysis.py rescales every value to
`value / base * 100` and the resulting first point equals exactly 100. -/
theorem claim_C5_normalized_base (b : ℚ) (rest : List ℚ) (hb : b ≠ 0) :
    (Project.normalized_revenue (b :: rest)).head? = some 100 ∧
    Project.normalized_revenue (b :: rest) = (b :: rest).map (fun v => v / b * 100) := by
  constructor
  · show some (b / b * 100) = some 100
    rw [div_self hb]; norm_num
  · rfl

/-- C5 witness: a concrete series with base 4 starts at exactly 100. -/
theorem claim_C5_witness : (Project.normalized_revenue [4, 8]).head? = some 100 :=
  (claim_C5_normalized_base 4 [8] (by norm_num)).1

/-- C7: the forecasting operation rejects every series with fewer than two
observed points with a descriptive error instead of fitting a line. -/
theorem claim_C7_reject_short_series (ys : List ℚ) (k : ℕ) (h : ys.length < 2) :
    Engine.linear_forecast ys k =
      Except.error "linear_forecast: need at least 2 observed points" := by
  unfold Engine.linear_forecast
  rw [if_pos h]

/-- C7 witness: a one-point series is rejected. -/
theorem claim_C7_witness :
    Engine.linear_forecast [5] 3 =
      Except.error "linear_forecast: need at least 2 observed points" :=
  claim_C7_reject_short_series [5] 3 (by norm_num)

/- Helper lemmas for the growth series pipeline. -/

theorem map_filter_eq_filterMap (l : List ℕ) (f : ℕ → Project.Cell) :
    ((l.map f).filter (fun c => ! c.isNaN)).map Project.scale100 =
      l.filterMap (fun i =>
        if (f i).isNaN then none else some (Project.scale100 (f i))) := by
  induction l with
  | nil => rfl
  | cons a t ih =>
    simp only [List.map_cons, List.filter_cons, List.filterMap_cons]
    by_cases h : (f a).isNaN
    · simp [h, ih]
    · simp [h, ih]

/-- C2 counterexample: on the series `[100, 0, 0]` with lag 1, the code
(`pct_change().dropna() * 100`) computes `[NaN, -1.0, NaN]` (the last is
`0 / 0`), drops both NaN rows and returns `[-100.0]` of length 1, whereas
the claim promises one output point per index `i >= lag` (the zero-prior
point kept in place as an undefined value), hence length
`len - lag = 2`. -/
theorem claim_C2_counterexample :
    Project.qoq_growth [100, 0, 0] 1 = [Project.Cell.val (-100)] ∧
    (Project.qoq_growth [100, 0, 0] 1).length ≠ [(100 : ℚ), 0, 0].length - 1 := by
  constructor
  · norm_num [Project.qoq_growth, Project.pct_change, Project.dropna,
      Project.divCell, Project.scale100, Project.Cell.isNaN, List.range_succ]
  · norm_num [Project.qoq_growth, Project.pct_change, Project.dropna,
      Project.divCell, Project.scale100, Project.Cell.isNaN, List.range_succ]

/-- C2 (amended): for every series and lag at least 1, the growth series
is, in order, one point per index `i >= lag` except those where the prior
and the current value are both zero (such rows are NaN and `dropna`
removes them); a point with nonzero prior value equals
`(v[i] - v[i-lag]) / v[i-lag] * 100`, a point with zero prior and nonzero
current value is kept as a signed infinity rather than an undefined NaN,
the first `lag` points are dropped without padding, and the concrete input
`[100, 110, 121]` with lag 1 yields `[10, 10]` percent. -/
theorem claim_C2_period_growth (xs : List ℚ) (lag : ℕ) (hl : 1 ≤ lag) :
    Project.qoq_growth xs lag =
      (List.range (xs.length - lag)).filterMap (fun j =>
        if xs.getD j 0 = 0 ∧ xs.getD (j + lag) 0 = 0 then none
        else some (
          if xs.getD j 0 = 0 then
            (if 0 < xs.getD (j + lag) 0 then Project.Cell.pinf
             else Project.Cell.ninf)
          else Project.Cell.val
            ((xs.getD (j + lag) 0 - xs.getD j 0) / xs.getD j 0 * 100))) ∧
    Project.qoq_growth [100, 110, 121] 1 =
      [Project.Cell.val 10, Project.Cell.val 10] := by
  constructor
  · show ((((List.range xs.length).map _).filter
        (fun c => ! c.isNaN)).map Project.scale100) = _
    rw [map_filter_eq_filterMap]
    by_cases hll : lag ≤ xs.length
    · obtain ⟨k, hk⟩ : ∃ k, xs.length = lag + k := ⟨xs.length - lag, by omega⟩
      rw [hk, Nat.add_sub_cancel_left, List.range_add, List.filterMap_append,
        List.filterMap_map]
      have hnil : (List.range lag).filterMap (fun i =>
          if ((if lag ≤ i then Project.divCell (xs.getD i 0) (xs.getD (i - lag) 0)
               else Project.Cell.nan)).isNaN then none
          else some (Project.scale100
            (if lag ≤ i then Project.divCell (xs.getD i 0) (xs.getD (i - lag) 0)
             else Project.Cell.nan))) = [] := by
        rw [List.filterMap_eq_nil]
        intro i hi
        rw [List.mem_range] at hi
        have hni : ¬ lag ≤ i := by omega
        rw [if_neg hni]
        rfl
      rw [hnil, List.nil_append]
      apply List.filterMap_congr
      intro j hj
      rw [List.mem_range] at hj
      have hle : lag ≤ lag + j := Nat.le_add_right lag j
      have hsub : lag + j - lag = j := by omega
      simp only [Function.comp_apply, if_pos hle, hsub]
      have hcomm : lag + j = j + lag := Nat.add_comm lag j
      rw [hcomm]
      unfold Project.divCell
      by_cases hp : xs.getD j 0 = 0
      · rw [if_pos hp]
        by_cases hc : xs.getD (j + lag) 0 = 0
        · rw [if_pos hc, if_pos (And.intro hp hc)]
          rfl
        · have h2 : ¬ (xs.getD j 0 = 0 ∧ xs.getD (j + lag) 0 = 0) :=
            fun h => hc h.2
          rw [if_neg hc, if_neg h2, if_pos hp]
          by_cases hcpos : 0 < xs.getD (j + lag) 0
          · rw [if_pos hcpos]
            rfl
          · rw [if_neg hcpos]
            rfl
      · have h1 : ¬ (xs.getD j 0 = 0 ∧ xs.getD (j + lag) 0 = 0) :=
          fun h => hp h.1
        rw [if_neg h1, if_neg hp]
        simp only [Project.Cell.isNaN, Project.scale100, Bool.false_eq_true,
          if_false]
        have hdiv : (xs.getD (j + lag) 0 - xs.getD j 0) / xs.getD j 0 =
            xs.getD (j + lag) 0 / xs.getD j 0 - 1 := by
          rw [sub_div, div_self hp]
        rw [hdiv, if_neg hp]
    · have hz : xs.length - lag = 0 := by omega
      rw [hz]
      show _ = ([] : List Project.Cell)
      rw [List.filterMap_eq_nil]
      intro i hi
      rw [List.mem_range] at hi
      have hni : ¬ lag ≤ i := by omega
      rw [if_neg hni]
      rfl
  · norm_num [Project.qoq_growth, Project.pct_change, Project.dropna,
      Project.divCell, Project.scale100, Project.Cell.isNaN, List.range_succ]

/-- C2 witness: the concrete quarterly series of the claim. -/
theorem claim_C2_witness :
    Project.qoq_growth [100, 110, 121] 1 =
      [Project.Cell.val 10, Project.Cell.val 10] :=
  (claim_C2_period_growth [100, 110, 121] 1 (by norm_num)).2

/- Helper lemmas for the rolling standard deviation column. -/

theorem rolling_window_length (xs : List ℝ) (w i : ℕ) (hi : i < xs.length)
    (hw : w ≤ i + 1) : ((xs.take (i + 1)).drop (i + 1 - w)).length = w := by
  rw [List.length_drop, List.length_take]
  omega

theorem sampleStd_isSome (window : List ℝ) :
    (Project.sampleStd window).isSome = true ↔ 2 ≤ window.length := by
  unfold Project.sampleStd
  by_cases h : window.length ≤ 1
  · rw [if_pos h]
    simp
    omega
  · rw [if_neg h]
    simp
    omega

theorem rolling_std_getElem (xs : List ℝ) (w i : ℕ)
    (hi : i < (Project.rolling_std xs w).length) :
    (Project.rolling_std xs w)[i] =
      if w ≤ i + 1 then Project.sampleStd ((xs.take (i + 1)).drop (i + 1 - w))
      else none := by
  simp [Project.rolling_std]

theorem countP_range_le (n k : ℕ) :
    (List.range (k + n)).countP (fun i => decide (k ≤ i)) = n := by
  rw [List.range_add, List.countP_append, List.countP_map]
  have hz : (List.range k).countP (fun i => decide (k ≤ i)) = 0 := by
    rw [List.countP_eq_zero]
    intro a ha
    rw [List.mem_range] at ha
    simp only [decide_eq_true_eq]
    omega
  have hf : (List.range n).countP
      ((fun i => decide (k ≤ i)) ∘ (fun x => k + x)) = n := by
    have hall := (@List.countP_eq_length ℕ (List.range n)
      ((fun i => decide (k ≤ i)) ∘ (fun x => k + x))).mpr ?_
    · rw [hall, List.length_range]
    · intro a ha
      simp only [Function.comp_apply, decide_eq_true_eq]
      omega
  rw [hz, hf, Nat.zero_add]

/-- C3 counterexample: the code pads the rolling standard deviation column
with NaN instead of shortening it.  On the three-point series `[1, 2, 3]`
with window 2 the column produced by the code has length 3, not
`3 - 2 + 1 = 2` as the claim states. -/
theorem claim_C3_counterexample :
    (Project.rolling_std [1, 2, 3] 2).length ≠ [(1 : ℝ), 2, 3].length - 2 + 1 := by
  simp [Project.rolling_std]

/-- C3 (amended): the rolling standard deviation column keeps one entry per
input row; for a window of at least two, entry `i` is defined exactly when
`window_size` observations are available (the first `window_size - 1`
entries are NaN padding, not absent), the number of defined entries equals
`len - window_size + 1` when `len >= window_size`, and no entry is defined
when `len < window_size`. -/
theorem claim_C3_rolling_amended (xs : List ℝ) (w : ℕ) (hw : 2 ≤ w) :
    (Project.rolling_std xs w).length = xs.length ∧
    (∀ i, i < xs.length →
      (((Project.rolling_std xs w).getD i none).isSome = true ↔ w ≤ i + 1)) ∧
    (w ≤ xs.length →
      (Project.rolling_std xs w).countP (fun o => o.isSome) = xs.length - w + 1) ∧
    (xs.length < w →
      (Project.rolling_std xs w).countP (fun o => o.isSome) = 0) := by
  have hlen : (Project.rolling_std xs w).length = xs.length := by
    simp [Project.rolling_std]
  have hcnt : (Project.rolling_std xs w).countP (fun o => o.isSome) =
      (List.range xs.length).countP (fun i =>
        (if w ≤ i + 1 then Project.sampleStd ((xs.take (i + 1)).drop (i + 1 - w))
         else none).isSome) := by
    unfold Project.rolling_std
    rw [List.countP_map]
    rfl
  refine ⟨hlen, ?_, ?_, ?_⟩
  · intro i hi
    have hi2 : i < (Project.rolling_std xs w).length := by rw [hlen]; exact hi
    rw [List.getD_eq_getElem _ _ hi2, rolling_std_getElem xs w i hi2]
    by_cases hwi : w ≤ i + 1
    · rw [if_pos hwi, sampleStd_isSome, rolling_window_length xs w i hi hwi]
      exact ⟨fun _ => hwi, fun _ => hw⟩
    · rw [if_neg hwi]
      simp [hwi]
  · intro hwlen
    rw [hcnt]
    have hcong : (List.range xs.length).countP (fun i =>
        (if w ≤ i + 1 then Project.sampleStd ((xs.take (i + 1)).drop (i + 1 - w))
         else none).isSome) =
        (List.range xs.length).countP (fun i => decide (w - 1 ≤ i)) := by
      apply List.countP_congr
      intro i hi
      rw [List.mem_range] at hi
      by_cases hwi : w ≤ i + 1
      · rw [if_pos hwi, sampleStd_isSome, rolling_window_length xs w i hi hwi]
        simp only [decide_eq_true_eq]
        constructor
        · intro _; omega
        · intro _; exact hw
      · rw [if_neg hwi]
        simp only [Option.isSome_none, decide_eq_true_eq]
        constructor
        · intro hfalse; cases hfalse
        · intro hcontra; omega
    rw [hcong]
    have hsplit : xs.length = (w - 1) + (xs.length - w + 1) := by omega
    rw [hsplit, countP_range_le]
    omega
  · intro hshort
    rw [hcnt, List.countP_eq_zero]
    intro i hi
    rw [List.mem_range] at hi
    have hni : ¬ w ≤ i + 1 := by omega
    rw [if_neg hni]
    simp

/-- C3 witness: the amended statement instantiated on `[1, 2, 3]` with
window 2: the column has length 3 and exactly 2 defined entries. -/
theorem claim_C3_witness :
    (Project.rolling_std [1, 2, 3] 2).length = [(1 : ℝ), 2, 3].length ∧
    (Project.rolling_std [1, 2, 3] 2).countP (fun o => o.isSome) =
      [(1 : ℝ), 2, 3].length - 2 + 1 :=
  ⟨(claim_C3_rolling_amended [1, 2, 3] 2 (by norm_num)).1,
   (claim_C3_rolling_amended [1, 2, 3] 2 (by norm_num)).2.2.1 (by norm_num)⟩

/- Helper lemmas for the quarter alignment. -/

theorem markerMem_iff (m : String) (s : List (String × ℚ)) :
    Project.markerMem m s = true ↔ m ∈ s.map Prod.fst := by
  unfold Project.markerMem
  rw [List.any_eq_true]
  constructor
  · rintro ⟨p, hp, hpm⟩
    rw [beq_iff_eq] at hpm
    rw [← hpm]
    exact List.mem_map_of_mem Prod.fst hp
  · intro hm
    rcases List.mem_map.mp hm with ⟨p, hp, hpm⟩
    exact ⟨p, hp, beq_iff_eq.mpr hpm⟩

theorem common_marker_iff (a b : List (String × ℚ)) (m : String) :
    Project.common_marker a b m = true ↔
      (m ∈ a.map Prod.fst ∧ m ∈ b.map Prod.fst) := by
  unfold Project.common_marker
  rw [Bool.and_eq_true, markerMem_iff, markerMem_iff]

theorem aligned_markers_mem (a b l : List (String × ℚ)) (m : String) :
    m ∈ (l.filter (fun p => Project.common_marker a b p.1)).map Prod.fst ↔
      (m ∈ l.map Prod.fst ∧ Project.common_marker a b m = true) := by
  constructor
  · intro hm
    rcases List.mem_map.mp hm with ⟨p, hp, hpm⟩
    rcases List.mem_filter.mp hp with ⟨hpl, hpc⟩
    subst hpm
    exact ⟨List.mem_map_of_mem Prod.fst hpl, hpc⟩
  · rintro ⟨hml, hmc⟩
    rcases List.mem_map.mp hml with ⟨p, hp, hpm⟩
    refine List.mem_map.mpr ⟨p, List.mem_filter.mpr ⟨hp, ?_⟩, hpm⟩
    rw [hpm]
    exact hmc

theorem aligned_length_eq_filter (a b l : List (String × ℚ)) :
    (l.filter (fun p => Project.common_marker a b p.1)).length =
      ((l.map Prod.fst).filter (Project.common_marker a b)).length := by
  rw [← List.countP_eq_length_filter, ← List.countP_eq_length_filter,
    List.countP_map]
  rfl

/-- C6: the alignment restricts both series to exactly the set intersection
of their period markers, preserving the original chronological row order
(each output is a sublist of its input), and on series with unique markers
the two outputs have identical marker sets and equal lengths. -/
theorem claim_C6_align_common (a b : List (String × ℚ))
    (ha : (a.map Prod.fst).Nodup) (hb : (b.map Prod.fst).Nodup) :
    (∀ m, m ∈ (Project.aligned_df a b).1.map Prod.fst ↔
      (m ∈ a.map Prod.fst ∧ m ∈ b.map Prod.fst)) ∧
    (∀ m, m ∈ (Project.aligned_df a b).2.map Prod.fst ↔
      (m ∈ a.map Prod.fst ∧ m ∈ b.map Prod.fst)) ∧
    (Project.aligned_df a b).1.length = (Project.aligned_df a b).2.length ∧
    (Project.aligned_df a b).1.Sublist a ∧
    (Project.aligned_df a b).2.Sublist b := by
  refine ⟨?_, ?_, ?_, List.filter_sublist a, List.filter_sublist b⟩
  · intro m
    rw [show (Project.aligned_df a b).1 =
        a.filter (fun p => Project.common_marker a b p.1) from rfl,
      aligned_markers_mem a b a m, common_marker_iff]
    tauto
  · intro m
    rw [show (Project.aligned_df a b).2 =
        b.filter (fun p => Project.common_marker a b p.1) from rfl,
      aligned_markers_mem a b b m, common_marker_iff]
    tauto
  · show (a.filter (fun p => Project.common_marker a b p.1)).length =
      (b.filter (fun p => Project.common_marker a b p.1)).length
    rw [aligned_length_eq_filter a b a, aligned_length_eq_filter a b b]
    apply List.Perm.length_eq
    rw [List.perm_ext_iff_of_nodup (ha.filter _) (hb.filter _)]
    intro m
    rw [List.mem_filter, List.mem_filter]
    constructor
    · rintro ⟨hma, hc⟩
      exact ⟨((common_marker_iff a b m).mp hc).2, hc⟩
    · rintro ⟨hmb, hc⟩
      exact ⟨((common_marker_iff a b m).mp hc).1, hc⟩

/-- C6 witness: two concrete quarterly series sharing one quarter. -/
theorem claim_C6_witness :
    (Project.aligned_df [("2024-03-31", 100), ("2024-06-30", 110)]
      [("2024-06-30", 50)]).1.length =
    (Project.aligned_df [("2024-03-31", 100), ("2024-06-30", 110)]
      [("2024-06-30", 50)]).2.length :=
  (claim_C6_align_common [("2024-03-31", 100), ("2024-06-30", 110)]
    [("2024-06-30", 50)] (by decide) (by decide)).2.2.1

/- Helper lemmas for the best/worst quarter rows. -/

theorem argmaxFirst_spec (rest : List (ℕ × ℚ)) : ∀ p : ℕ × ℚ,
    (Project.argmaxFirst p rest = p ∨ Project.argmaxFirst p rest ∈ rest) ∧
    p.2 ≤ (Project.argmaxFirst p rest).2 ∧
    (∀ q ∈ rest, q.2 ≤ (Project.argmaxFirst p rest).2) ∧
    (p.2 = (Project.argmaxFirst p rest).2 → Project.argmaxFirst p rest = p) := by
  induction rest with
  | nil =>
    intro p
    refine ⟨Or.inl rfl, le_refl _, ?_, fun _ => rfl⟩
    intro q hq
    exact absurd hq (List.not_mem_nil q)
  | cons r t ih =>
    intro p
    have hunfold : Project.argmaxFirst p (r :: t) =
        Project.argmaxFirst (if p.2 < r.2 then r else p) t := rfl
    by_cases hpr : p.2 < r.2
    · rw [hunfold, if_pos hpr]
      obtain ⟨hmem, hself, hall, hfirst⟩ := ih r
      refine ⟨?_, le_of_lt (lt_of_lt_of_le hpr hself), ?_, ?_⟩
      · rcases hmem with h | h
        · rw [h]; exact Or.inr (List.mem_cons_self r t)
        · exact Or.inr (List.mem_cons_of_mem r h)
      · intro q hq
        rcases List.mem_cons.mp hq with h | h
        · rw [h]; exact hself
        · exact hall q h
      · intro hpeq
        exact absurd hpeq (ne_of_lt (lt_of_lt_of_le hpr hself))
    · rw [hunfold, if_neg hpr]
      push_neg at hpr
      obtain ⟨hmem, hself, hall, hfirst⟩ := ih p
      refine ⟨?_, hself, ?_, hfirst⟩
      · rcases hmem with h | h
        · exact Or.inl h
        · exact Or.inr (List.mem_cons_of_mem r h)
      · intro q hq
        rcases List.mem_cons.mp hq with h | h
        · rw [h]; exact le_trans hpr hself
        · exact hall q h

theorem argminFirst_spec (rest : List (ℕ × ℚ)) : ∀ p : ℕ × ℚ,
    (Project.argminFirst p rest = p ∨ Project.argminFirst p rest ∈ rest) ∧
    (Project.argminFirst p rest).2 ≤ p.2 ∧
    (∀ q ∈ rest, (Project.argminFirst p rest).2 ≤ q.2) ∧
    (p.2 = (Project.argminFirst p rest).2 → Project.argminFirst p rest = p) := by
  induction rest with
  | nil =>
    intro p
    refine ⟨Or.inl rfl, le_refl _, ?_, fun _ => rfl⟩
    intro q hq
    exact absurd hq (List.not_mem_nil q)
  | cons r t ih =>
    intro p
    have hunfold : Project.argminFirst p (r :: t) =
        Project.argminFirst (if r.2 < p.2 then r else p) t := rfl
    by_cases hpr : r.2 < p.2
    · rw [hunfold, if_pos hpr]
      obtain ⟨hmem, hself, hall, hfirst⟩ := ih r
      refine ⟨?_, le_of_lt (lt_of_le_of_lt hself hpr), ?_, ?_⟩
      · rcases hmem with h | h
        · rw [h]; exact Or.inr (List.mem_cons_self r t)
        · exact Or.inr (List.mem_cons_of_mem r h)
      · intro q hq
        rcases List.mem_cons.mp hq with h | h
        · rw [h]; exact hself
        · exact hall q h
      · intro hpeq
        exact absurd hpeq.symm (ne_of_lt (lt_of_le_of_lt hself hpr))
    · rw [hunfold, if_neg hpr]
      push_neg at hpr
      obtain ⟨hmem, hself, hall, hfirst⟩ := ih p
      refine ⟨?_, hself, ?_, hfirst⟩
      · rcases hmem with h | h
        · exact Or.inl h
        · exact Or.inr (List.mem_cons_of_mem r h)
      · intro q hq
        rcases List.mem_cons.mp hq with h | h
        · rw [h]; exact le_trans hself hpr
        · exact hall q h

theorem argmaxFirst_earliest (rest : List (ℕ × ℚ)) : ∀ p : ℕ × ℚ,
    (p :: rest).Pairwise (fun q r => q.1 ≤ r.1) →
    ∀ q, q ∈ p :: rest → q.2 = (Project.argmaxFirst p rest).2 →
      (Project.argmaxFirst p rest).1 ≤ q.1 := by
  induction rest with
  | nil =>
    intro p _ q hq hval
    rcases List.mem_cons.mp hq with h | h
    · rw [h]
      exact le_refl _
    · exact absurd h (List.not_mem_nil q)
  | cons r t ih =>
    intro p hsorted q hq hval
    have hunfold : Project.argmaxFirst p (r :: t) =
        Project.argmaxFirst (if p.2 < r.2 then r else p) t := rfl
    have hsorted_rt : (r :: t).Pairwise (fun q r => q.1 ≤ r.1) :=
      List.Pairwise.of_cons hsorted
    have hsorted_pt : (p :: t).Pairwise (fun q r => q.1 ≤ r.1) := by
      apply List.Pairwise.sublist _ hsorted
      exact List.Sublist.cons₂ p (List.sublist_cons_self r t)
    by_cases hpr : p.2 < r.2
    · rw [hunfold, if_pos hpr] at hval ⊢
      rcases List.mem_cons.mp hq with h | h
      · exfalso
        have hrmax := (argmaxFirst_spec t r).2.1
        rw [h] at hval
        exact absurd hval (ne_of_lt (lt_of_lt_of_le hpr hrmax))
      · exact ih r hsorted_rt q h hval
    · rw [hunfold, if_neg hpr] at hval ⊢
      push_neg at hpr
      rcases List.mem_cons.mp hq with h | h
      · exact ih p hsorted_pt q (h ▸ List.mem_cons_self p t) hval
      · rcases List.mem_cons.mp h with h2 | h2
        · have hpmax := (argmaxFirst_spec t p).2.1
          have hpeq : p.2 = (Project.argmaxFirst p t).2 := by
            apply le_antisymm hpmax
            rw [← hval, h2]
            exact hpr
          rw [(argmaxFirst_spec t p).2.2.2 hpeq, h2]
          exact (List.pairwise_cons.mp hsorted).1 r (List.mem_cons_self r t)
        · exact ih p hsorted_pt q (List.mem_cons_of_mem p h2) hval

theorem argminFirst_earliest (rest : List (ℕ × ℚ)) : ∀ p : ℕ × ℚ,
    (p :: rest).Pairwise (fun q r => q.1 ≤ r.1) →
    ∀ q, q ∈ p :: rest → q.2 = (Project.argminFirst p rest).2 →
      (Project.argminFirst p rest).1 ≤ q.1 := by
  induction rest with
  | nil =>
    intro p _ q hq hval
    rcases List.mem_cons.mp hq with h | h
    · rw [h]
      exact le_refl _
    · exact absurd h (List.not_mem_nil q)
  | cons r t ih =>
    intro p hsorted q hq hval
    have hunfold : Project.argminFirst p (r :: t) =
        Project.argminFirst (if r.2 < p.2 then r else p) t := rfl
    have hsorted_rt : (r :: t).Pairwise (fun q r => q.1 ≤ r.1) :=
      List.Pairwise.of_cons hsorted
    have hsorted_pt : (p :: t).Pairwise (fun q r => q.1 ≤ r.1) := by
      apply List.Pairwise.sublist _ hsorted
      exact List.Sublist.cons₂ p (List.sublist_cons_self r t)
    by_cases hpr : r.2 < p.2
    · rw [hunfold, if_pos hpr] at hval ⊢
      rcases List.mem_cons.mp hq with h | h
      · exfalso
        have hrmin := (argminFirst_spec t r).2.1
        rw [h] at hval
        exact absurd hval.symm (ne_of_lt (lt_of_le_of_lt hrmin hpr))
      · exact ih r hsorted_rt q h hval
    · rw [hunfold, if_neg hpr] at hval ⊢
      push_neg at hpr
      rcases List.mem_cons.mp hq with h | h
      · exact ih p hsorted_pt q (h ▸ List.mem_cons_self p t) hval
      · rcases List.mem_cons.mp h with h2 | h2
        · have hpmin := (argminFirst_spec t p).2.1
          have hpeq : p.2 = (Project.argminFirst p t).2 := by
            apply le_antisymm
            · rw [← hval, h2]
              exact hpr
            · exact hpmin
          rw [(argminFirst_spec t p).2.2.2 hpeq, h2]
          exact (List.pairwise_cons.mp hsorted).1 r (List.mem_cons_self r t)
        · exact ih p hsorted_pt q (List.mem_cons_of_mem p h2) hval

/-- C8: on every non-empty series (markers in chronological order),
`best_worst` returns as best the row with the maximum value and as worst
the row with the minimum value, each tie broken by the earliest period
marker, and on the concrete series `[(Q1,100),(Q2,150),(Q3,90)]` (quarters
numbered 1..3) it returns best `(Q2,150)` and worst `(Q3,90)`. -/
theorem claim_C8_best_worst (p : ℕ × ℚ) (rest : List (ℕ × ℚ))
    (hsorted : (p :: rest).Pairwise (fun q r => q.1 ≤ r.1)) :
    ∃ bw, Project.best_worst (p :: rest) = some bw ∧
      bw.1 ∈ p :: rest ∧ bw.2 ∈ p :: rest ∧
      (∀ q ∈ p :: rest, q.2 ≤ bw.1.2) ∧
      (∀ q ∈ p :: rest, bw.2.2 ≤ q.2) ∧
      (∀ q ∈ p :: rest, q.2 = bw.1.2 → bw.1.1 ≤ q.1) ∧
      (∀ q ∈ p :: rest, q.2 = bw.2.2 → bw.2.1 ≤ q.1) ∧
      Project.best_worst [(1, 100), (2, 150), (3, 90)] =
        some ((2, 150), (3, 90)) := by
  refine ⟨(Project.argmaxFirst p rest, Project.argminFirst p rest), rfl,
    ?_, ?_, ?_, ?_, ?_, ?_, ?_⟩
  · rcases (argmaxFirst_spec rest p).1 with h | h
    · rw [h]; exact List.mem_cons_self p rest
    · exact List.mem_cons_of_mem p h
  · rcases (argminFirst_spec rest p).1 with h | h
    · rw [h]; exact List.mem_cons_self p rest
    · exact List.mem_cons_of_mem p h
  · intro q hq
    rcases List.mem_cons.mp hq with h | h
    · rw [h]; exact (argmaxFirst_spec rest p).2.1
    · exact (argmaxFirst_spec rest p).2.2.1 q h
  · intro q hq
    rcases List.mem_cons.mp hq with h | h
    · rw [h]; exact (argminFirst_spec rest p).2.1
    · exact (argminFirst_spec rest p).2.2.1 q h
  · exact argmaxFirst_earliest rest p hsorted
  · exact argminFirst_earliest rest p hsorted
  · norm_num [Project.best_worst, Project.argmaxFirst, Project.argminFirst]

/-- C8 witness: the concrete three-quarter series of the claim. -/
theorem claim_C8_witness :
    Project.best_worst [(1, 100), (2, 150), (3, 90)] =
      some ((2, 150), (3, 90)) := by
  obtain ⟨bw, -, -, -, -, -, -, -, hconc⟩ :=
    claim_C8_best_worst (1, 100) [(2, 150), (3, 90)] (by decide)
  exact hconc
